import Mathlib

set_option maxRecDepth 100000

/-!
# Verification of the TWS protocol core (`src/protocol/protocol.rs`)

This file gives a shallow embedding, over byte lists (`List Nat`, each
element `< 256`), of the authenticated-packet layer of the TWS protocol:

* `hmac_sha256`  — HMAC-SHA256 + base64, the authentication primitive;
* `build_authenticated_packet` / `parse_authenticated_packet` — the
  `AUTH <signature>` envelope;
* `_handshake_build` / `_handshake_parse` — the handshake packet
  (`NOW <ms>` / `TARGET <addr>`) with its 5000 ms replay window;
* `_connect_build` / `connect_parse` — the connect packet
  (`NEW CONNECTION <id>`).

Rust strings are modelled as their UTF-8 byte sequences; `&[u8]` values
are byte sequences as well, so `str::len`, `starts_with` and byte-range
slicing translate to `List.length`, `List.isPrefixOf` and `List.drop`.
`i64` values are modelled as `Int` with two's-complement wrapping
(`i64Wrap`) applied exactly where the Rust source performs `i64`
arithmetic (release-mode semantics; debug builds would panic on
overflow instead at the same inputs).  Fallible Rust functions return a
`PResult`; the extra `PResult.panic` value records control paths on
which the Rust source panics (out-of-bounds slicing) rather than
returning a typed error.

The `util` module (`time_ms`, `addr_to_str`, `str_to_addr`, `rand_str`)
is not part of the sources under verification; following the
specification (§6) those collaborators are passed in explicitly: the
address pair as an `AddrModel`, the timestamp and the random id as
ordinary arguments of the already-parameterised `_handshake_*` /
`_connect_build` functions.
-/

namespace Tws

/-! ## Bytes and ASCII strings -/

/-- Byte sequence of an ASCII string literal (for ASCII characters the
code point equals the single UTF-8 byte). -/
def asciiBytes (s : String) : List Nat := s.data.map Char.toNat

/-! ## SHA-256 (FIPS 180-4), on byte lists -/

/-- Truncation to a 32-bit word. -/
def w32 (x : Nat) : Nat := x % 4294967296

/-- Right rotation of a 32-bit word. -/
def rotr (n x : Nat) : Nat := w32 (x / 2 ^ n + x % 2 ^ n * 2 ^ (32 - n))

/-- Logical right shift. -/
def shr (n x : Nat) : Nat := x / 2 ^ n

def bsig0 (x : Nat) : Nat := rotr 2 x ^^^ rotr 13 x ^^^ rotr 22 x

def bsig1 (x : Nat) : Nat := rotr 6 x ^^^ rotr 11 x ^^^ rotr 25 x

def ssig0 (x : Nat) : Nat := rotr 7 x ^^^ rotr 18 x ^^^ shr 3 x

def ssig1 (x : Nat) : Nat := rotr 17 x ^^^ rotr 19 x ^^^ shr 10 x

def chf (x y z : Nat) : Nat := (x &&& y) ^^^ ((4294967295 ^^^ x) &&& z)

def majf (x y z : Nat) : Nat := (x &&& y) ^^^ (x &&& z) ^^^ (y &&& z)

/-- The 64 SHA-256 round constants (FIPS 180-4 section 4.2.2, here as
decimal literals). -/
def K64 : List Nat :=
  [1116352408, 1899447441, 3049323471, 3921009573, 961987163, 1508970993,
   2453635748, 2870763221, 3624381080, 310598401, 607225278, 1426881987,
   1925078388, 2162078206, 2614888103, 3248222580, 3835390401, 4022224774,
   264347078, 604807628, 770255983, 1249150122, 1555081692, 1996064986,
   2554220882, 2821834349, 2952996808, 3210313671, 3336571891, 3584528711,
   113926993, 338241895, 666307205, 773529912, 1294757372, 1396182291,
   1695183700, 1986661051, 2177026350, 2456956037, 2730485921, 2820302411,
   3259730800, 3345764771, 3516065817, 3600352804, 4094571909, 275423344,
   430227734, 506948616, 659060556, 883997877, 958139571, 1322822218,
   1537002063, 1747873779, 1955562222, 2024104815, 2227730452, 2361852424,
   2428436474, 2756734187, 3204031479, 3329325298]

/-- Initial SHA-256 hash state (FIPS 180-4 section 5.3.3, decimal). -/
def H256 : List Nat :=
  [1779033703, 3144134277, 1013904242, 2773480762, 1359893119, 2600822924,
   528734635, 1541459225]

/-- 64-bit big-endian byte encoding. -/
def be8 (n : Nat) : List Nat :=
  [n / 72057594037927936 % 256, n / 281474976710656 % 256, n / 1099511627776 % 256,
   n / 4294967296 % 256, n / 16777216 % 256, n / 65536 % 256, n / 256 % 256, n % 256]

/-- 32-bit big-endian byte encoding. -/
def be4 (n : Nat) : List Nat :=
  [n / 16777216 % 256, n / 65536 % 256, n / 256 % 256, n % 256]

/-- Merkle–Damgård padding: `0x80`, zeros, 64-bit big-endian bit length. -/
def padMsg (m : List Nat) : List Nat :=
  m ++ 128 :: List.replicate ((119 - m.length % 64) % 64) 0 ++ be8 (8 * m.length)

/-- Tail of the chunking recursion: `acc` is the (partial) current
chunk. -/
def chunksGo (n : Nat) : List Nat → List Nat → List (List Nat)
  | [], acc => if acc = [] then [] else [acc]
  | b :: t, acc =>
    if acc.length + 1 = n + 1 then (acc ++ [b]) :: chunksGo n t []
    else chunksGo n t (acc ++ [b])

/-- Split into chunks of `n + 1` bytes (the last chunk may be short). -/
def chunksP (n : Nat) (l : List Nat) : List (List Nat) := chunksGo n l []

/-- Big-endian 32-bit words of a 64-byte block. -/
def words4 (b : List Nat) : List Nat :=
  (chunksP 3 b).map (fun c => c.foldl (fun a x => a * 256 + x) 0)

/-- One message-schedule extension step. -/
def schedStep (w : List Nat) : List Nat :=
  w ++ [w32 (ssig1 (w.getD (w.length - 2) 0) + w.getD (w.length - 7) 0 +
             ssig0 (w.getD (w.length - 15) 0) + w.getD (w.length - 16) 0)]

/-- Expand 16 words to the 64-word message schedule. -/
def msgSchedule (ws : List Nat) : List Nat :=
  (List.range 48).foldl (fun w _ => schedStep w) ws

/-- One SHA-256 round; the state is the list `[a,b,c,d,e,f,g,h]`,
`kw` the pair of round constant and schedule word. -/
def rnd (st : List Nat) (kw : Nat × Nat) : List Nat :=
  let a := st.getD 0 0
  let b := st.getD 1 0
  let c := st.getD 2 0
  let d := st.getD 3 0
  let e := st.getD 4 0
  let f := st.getD 5 0
  let g := st.getD 6 0
  let h := st.getD 7 0
  let t1 := w32 (h + bsig1 e + chf e f g + kw.1 + kw.2)
  let t2 := w32 (bsig0 a + majf a b c)
  [w32 (t1 + t2), a, b, c, w32 (d + t1), e, f, g]

/-- Compression of one 64-byte block into the hash state. -/
def compressBlock (h : List Nat) (block : List Nat) : List Nat :=
  let st := (K64.zip (msgSchedule (words4 block))).foldl rnd h
  (h.zip st).map (fun p => w32 (p.1 + p.2))

/-- SHA-256 digest (32 bytes) of a byte sequence. -/
def sha256 (m : List Nat) : List Nat :=
  (((chunksP 63 (padMsg m)).foldl compressBlock H256).map be4).flatten

/-! ## HMAC-SHA256 (RFC 2104, block size 64) -/

/-- Raw HMAC-SHA256 MAC (32 bytes). -/
def hmacRaw (key msg : List Nat) : List Nat :=
  let k0 := if 64 < key.length then sha256 key else key
  let kp := k0 ++ List.replicate (64 - k0.length) 0
  sha256 ((kp.map (fun b => b ^^^ 92)) ++ sha256 ((kp.map (fun b => b ^^^ 54)) ++ msg))

/-! ## Base64 (RFC 4648, with `=` padding) -/

/-- The base64 alphabet as a byte table. -/
def b64table : List Nat :=
  asciiBytes "ABCDEFGHIJKLMNOPQRSTUVWXYZabcdefghijklmnopqrstuvwxyz0123456789+/"

/-- Character (byte) for a sextet. -/
def b64c (n : Nat) : Nat := b64table.getD n 0

/-- Base64 encoding of a byte sequence; `61` is `'='`. -/
def base64Encode : List Nat → List Nat
  | [] => []
  | [a] => [b64c (a / 4), b64c (a % 4 * 16), 61, 61]
  | [a, b] => [b64c (a / 4), b64c (a % 4 * 16 + b / 16), b64c (b % 16 * 4), 61]
  | a :: b :: c :: rest =>
      b64c (a / 4) :: b64c (a % 4 * 16 + b / 16) :: b64c (b % 16 * 4 + c / 64) :: b64c (c % 64)
        :: base64Encode rest

/-! ## UTF-8 validation (strict, as `std::str::from_utf8`) -/

/-- Continuation byte `0x80..0xBF`. -/
def contB (b : Nat) : Bool := 128 ≤ b && b ≤ 191

/-- Admissible second byte for a three-byte sequence with lead byte
`b1` (excludes overlong encodings and surrogates). -/
def v3 (b1 b2 : Nat) : Bool :=
  (b1 = 224 && 160 ≤ b2 && b2 ≤ 191) || (225 ≤ b1 && b1 ≤ 236 && contB b2) ||
  (b1 = 237 && 128 ≤ b2 && b2 ≤ 159) || (238 ≤ b1 && b1 ≤ 239 && contB b2)

/-- Admissible second byte for a four-byte sequence with lead byte `b1`
(excludes overlong encodings and code points above `U+10FFFF`). -/
def v4 (b1 b2 : Nat) : Bool :=
  (b1 = 240 && 144 ≤ b2 && b2 ≤ 191) || (241 ≤ b1 && b1 ≤ 243 && contB b2) ||
  (b1 = 244 && 128 ≤ b2 && b2 ≤ 143)

/-- Strict UTF-8 validity of a byte sequence, mirroring the acceptance
condition of Rust's `str::from_utf8`. -/
def utf8ValidB : List Nat → Bool
  | [] => true
  | b1 :: t1 =>
    if b1 < 128 then utf8ValidB t1
    else match t1 with
      | [] => false
      | b2 :: t2 =>
        if 194 ≤ b1 && b1 ≤ 223 then contB b2 && utf8ValidB t2
        else match t2 with
          | [] => false
          | b3 :: t3 =>
            if v3 b1 b2 then contB b3 && utf8ValidB t3
            else match t3 with
              | [] => false
              | b4 :: t4 => if v4 b1 b2 then contB b3 && contB b4 && utf8ValidB t4 else false

/-- Number of encoded characters of a (valid) UTF-8 byte sequence:
bytes that are not continuation bytes. -/
def utf8CharCount (s : List Nat) : Nat := (s.filter (fun b => !(contB b))).length

/-! ## Rust `str::lines` on byte sequences

Rust's `str::lines` splits at `'\n'`, swallowing the terminator, does
not yield a final empty line when the string ends with `'\n'`, and
strips one `'\r'` from the end of every line (`"\r\n"` handling). -/

/-- Split at every `0x0A` byte (`n` separators give `n + 1` pieces). -/
def splitNl : List Nat → List (List Nat)
  | [] => [[]]
  | b :: t =>
    if b = 10 then [] :: splitNl t
    else match splitNl t with
      | [] => [[b]]
      | h :: r => (b :: h) :: r

/-- Drop the final piece when it is empty (terminator semantics of
`str::lines`). -/
def dropLastEmpty (ps : List (List Nat)) : List (List Nat) :=
  if ps.getLast? = some [] then ps.dropLast else ps

/-- Strip one trailing `0x0D` (`'\r'`) byte. -/
def stripCr (l : List Nat) : List Nat :=
  if l.getLast? = some 13 then l.dropLast else l

/-- The line sequence produced by Rust's `str::lines`. -/
def rustLines (s : List Nat) : List (List Nat) :=
  (dropLastEmpty (splitNl s)).map stripCr

/-- `join("\n")` of a sequence of lines. -/
def joinNl : List (List Nat) → List Nat
  | [] => []
  | [x] => x
  | x :: r => x ++ 10 :: joinNl r

/-! ## `i64` arithmetic and decimal formatting/parsing -/

/-- Two's-complement wrap-around to the `i64` range, the release-mode
semantics of Rust `i64` arithmetic. -/
def i64Wrap (x : Int) : Int := (x + 9223372036854775808) % 18446744073709551616 - 9223372036854775808

/-- Decimal digits (ASCII bytes) of a natural number, as printed by
Rust's `format!`. -/
def natDecStr (n : Nat) : List Nat :=
  if n = 0 then [48] else ((Nat.digits 10 n).reverse).map (fun d => d + 48)

/-- The output of Rust's `format!("{}", t)` for an `i64` value. -/
def i64Str (t : Int) : List Nat :=
  if t < 0 then 45 :: natDecStr t.natAbs else natDecStr t.toNat

/-- ASCII decimal digit. -/
def digitB (b : Nat) : Bool := 48 ≤ b && b ≤ 57

/-- Digit-string part of integer parsing: at least one digit, only
digits; returns the (unbounded) decimal value. -/
def parseDigits (ds : List Nat) : Option Nat :=
  if ds = [] then none
  else if ds.all digitB then some (ds.foldl (fun a d => a * 10 + (d - 48)) 0)
  else none

/-- Rust's `str::parse::<i64>`: optional `+`/`-` sign, at least one
digit, only digits, overflow rejected (the magnitude bound depends on
the sign). -/
def parseI64 (s : List Nat) : Option Int :=
  match s with
  | [] => none
  | b :: t =>
    if b = 45 then
      match parseDigits t with
      | none => none
      | some n => if n ≤ 9223372036854775808 then some (-(n : Int)) else none
    else
      match parseDigits (if b = 43 then t else b :: t) with
      | none => none
      | some n => if n ≤ 9223372036854775807 then some (n : Int) else none

/-! ## The protocol functions of `src/protocol/protocol.rs` -/

/-- `pub fn hmac_sha256(passwd: &str, data: &str) -> Result<String>`:
base64 of the HMAC-SHA256 MAC.  `Hmac::<Sha256>::new` accepts keys of
every length, so the `Err` branch of the Rust function is dead and the
model is total. -/
def hmac_sha256 (passwd data : List Nat) : List Nat :=
  base64Encode (hmacRaw passwd data)

/-- Error outcomes of the protocol functions, named after the
specification's taxonomy (§7); the Rust source carries them as
`error_chain` string messages. -/
inductive PError where
  | malformedPacket
  | authFailure
  | notHandshakePacket
  | invalidTimestamp
  | handshakeExpired
  | invalidAddress
  | notConnectPacket
  deriving DecidableEq, Repr

/-- Outcome of a fallible protocol function; `panic` records a control
path on which the Rust source panics instead of returning `Result`. -/
inductive PResult (α : Type) where
  | ok : α → PResult α
  | err : PError → PResult α
  | panic : PResult α
  deriving DecidableEq, Repr

/-- `build_authenticated_packet`: `format!("AUTH {}\n{}", auth, msg)`. -/
def build_authenticated_packet (passwd msg : List Nat) : List Nat :=
  asciiBytes "AUTH " ++ hmac_sha256 passwd msg ++ 10 :: msg

/-- `parse_authenticated_packet(passwd, packet)`.  The Rust source
compares `packet[0..4]` against `"AUTH"` without a length guard, so a
packet shorter than 4 bytes panics (out-of-bounds range slice); this is
the `.panic` branch.  Then it requires UTF-8 validity, splits into
lines, recomputes the signature over `lines[1..].join("\n")` and
compares the first line against `format!("AUTH {}", auth)`. -/
def parse_authenticated_packet (passwd packet : List Nat) : PResult (List (List Nat)) :=
  if packet.length < 4 then .panic
  else if packet.take 4 ≠ asciiBytes "AUTH" then .err .malformedPacket
  else if utf8ValidB packet then
    let lines := rustLines packet
    let auth := hmac_sha256 passwd (joinNl (lines.drop 1))
    match lines with
    | [] => .panic
    | l0 :: rest => if l0 = asciiBytes "AUTH " ++ auth then .ok rest else .err .authFailure
  else .err .malformedPacket

/-- Modelled from the spec: the `util::addr_to_str` / `util::str_to_addr`
collaborator pair over socket addresses (the `util` module is not among
the sources; §6 specifies the pair as `addressToString` and its inverse
`parseAddress`). -/
structure AddrModel (A : Type) where
  addrToStr : A → List Nat
  strToAddr : List Nat → Option A

/-- `_handshake_build(passwd, time, target)`: authenticated packet with
body `format!("NOW {}\nTARGET {}", time, addr_to_str(target))`. -/
def _handshake_build {A : Type} (m : AddrModel A) (passwd : List Nat) (time : Int) (target : A) :
    List Nat :=
  build_authenticated_packet passwd
    (asciiBytes "NOW " ++ i64Str time ++ 10 :: (asciiBytes "TARGET " ++ m.addrToStr target))

/-- `_handshake_parse(passwd, time, packet)`: envelope parse, shape
checks on the two body lines, timestamp parse, replay check
`time - packet_time > 5 * 1000` (in `i64` arithmetic), address parse. -/
def _handshake_parse {A : Type} (m : AddrModel A) (passwd : List Nat) (time : Int)
    (packet : List Nat) : PResult A :=
  match parse_authenticated_packet passwd packet with
  | .panic => .panic
  | .err e => .err e
  | .ok lines =>
    match lines with
    | l0 :: l1 :: _ =>
      if (asciiBytes "NOW ").isPrefixOf l0 ∧ 4 < l0.length then
        if (asciiBytes "TARGET ").isPrefixOf l1 ∧ 7 < l1.length then
          match parseI64 (l0.drop 4) with
          | none => .err .invalidTimestamp
          | some packet_time =>
            if 5000 < i64Wrap (time - packet_time) then .err .handshakeExpired
            else
              match m.strToAddr (l1.drop 7) with
              | none => .err .invalidAddress
              | some a => .ok a
        else .err .notHandshakePacket
      else .err .notHandshakePacket
    | _ => .err .notHandshakePacket

/-- `_connect_build(passwd, conn_id)`: authenticated packet with body
`format!("NEW CONNECTION {}", conn_id)`. -/
def _connect_build (passwd conn_id : List Nat) : List Nat :=
  build_authenticated_packet passwd (asciiBytes "NEW CONNECTION " ++ conn_id)

/-- `connect_build(passwd)` draws `conn_id = util::rand_str(6)` and
returns `(conn_id, _connect_build(passwd, &conn_id))`.  Modelled from
the spec: the `randomString` collaborator's output is passed in as the
`conn_id` argument. -/
def connect_build (passwd conn_id : List Nat) : List Nat × List Nat :=
  (conn_id, _connect_build passwd conn_id)

/-- `connect_parse(passwd, packet)`: envelope parse, then the first
body line must start with `"NEW CONNECTION "` and have byte length
exactly 21; the result is `lines[0][15..]`. -/
def connect_parse (passwd packet : List Nat) : PResult (List Nat) :=
  match parse_authenticated_packet passwd packet with
  | .panic => .panic
  | .err e => .err e
  | .ok lines =>
    match lines with
    | l0 :: _ =>
      if (asciiBytes "NEW CONNECTION ").isPrefixOf l0 ∧ l0.length = 21 then .ok (l0.drop 15)
      else .err .notConnectPacket
    | [] => .err .notConnectPacket

/-- A trivial concrete address collaborator over raw byte strings, used
to instantiate universally quantified theorems at concrete inputs. -/
def listAddrModel : AddrModel (List Nat) where
  addrToStr := fun a => a
  strToAddr := fun s => some s

/-! ## Supporting lemmas: base64 and HMAC output bytes -/

/-- A byte that is plain ASCII and neither `'\n'` nor `'\r'`; such
bytes pass unchanged through UTF-8 validation and line splitting. -/
def GoodByte (b : Nat) : Prop := b < 128 ∧ b ≠ 10 ∧ b ≠ 13

instance : DecidablePred GoodByte := fun b => by
  unfold GoodByte
  infer_instance

theorem goodByte_b64c (n : Nat) : GoodByte (b64c n) := by
  by_cases h : n < 64
  · have h64 : ∀ m : Fin 64, GoodByte (b64c m.val) := by decide
    exact h64 ⟨n, h⟩
  · have hz : b64c n = 0 := by
      apply List.getD_eq_default
      have : b64table.length = 64 := by decide
      omega
    rw [hz]
    refine ⟨by omega, by omega, by omega⟩

theorem goodByte_base64Encode : ∀ (l : List Nat), ∀ x ∈ base64Encode l, GoodByte x := by
  intro l
  induction l using base64Encode.induct with
  | case1 => simp [base64Encode]
  | case2 a =>
    intro x hx
    simp only [base64Encode, List.mem_cons, List.not_mem_nil, or_false] at hx
    rcases hx with h | h | h | h <;> subst h <;>
      first
        | exact goodByte_b64c _
        | exact ⟨by omega, by omega, by omega⟩
  | case3 a b =>
    intro x hx
    simp only [base64Encode, List.mem_cons, List.not_mem_nil, or_false] at hx
    rcases hx with h | h | h | h <;> subst h <;>
      first
        | exact goodByte_b64c _
        | exact ⟨by omega, by omega, by omega⟩
  | case4 a b c rest ih =>
    intro x hx
    simp only [base64Encode, List.mem_cons] at hx
    rcases hx with h | h | h | h | h
    · subst h; exact goodByte_b64c _
    · subst h; exact goodByte_b64c _
    · subst h; exact goodByte_b64c _
    · subst h; exact goodByte_b64c _
    · exact ih x h

theorem goodByte_hmac (passwd data : List Nat) : ∀ x ∈ hmac_sha256 passwd data, GoodByte x :=
  goodByte_base64Encode (hmacRaw passwd data)

/-- The `AUTH` line never ends in a carriage return, so `str::lines`
leaves it unchanged. -/
theorem authLine_getLast (passwd data : List Nat) :
    (asciiBytes "AUTH " ++ hmac_sha256 passwd data).getLast? ≠ some 13 := by
  intro h
  have h13 : (13 : Nat) ∈ asciiBytes "AUTH " ++ hmac_sha256 passwd data :=
    List.mem_of_mem_getLast? (by rw [h]; rfl)
  rcases List.mem_append.mp h13 with hc | hc
  · exact absurd hc (by decide)
  · exact (goodByte_hmac passwd data 13 hc).2.2 rfl

theorem no_nl_in_hmac (passwd data : List Nat) : (10 : Nat) ∉ hmac_sha256 passwd data :=
  fun h => (goodByte_hmac passwd data 10 h).2.1 rfl

/-! ## Supporting lemmas: `str::lines` -/

theorem splitNl_ne_nil : ∀ s : List Nat, splitNl s ≠ [] := by
  intro s
  induction s with
  | nil => simp [splitNl]
  | cons b t ih =>
    simp only [splitNl]
    split
    · simp
    · rcases h : splitNl t with _ | ⟨x, r⟩
      · exact absurd h ih
      · simp

theorem splitNl_no_nl {s : List Nat} (h : (10 : Nat) ∉ s) : splitNl s = [s] := by
  induction s with
  | nil => rfl
  | cons b t ih =>
    have hb : b ≠ 10 := fun hb => h (by simp [hb])
    have ht : (10 : Nat) ∉ t := fun hm => h (List.mem_cons_of_mem _ hm)
    simp only [splitNl, if_neg hb, ih ht]

theorem splitNl_append {a : List Nat} (m : List Nat) (h : (10 : Nat) ∉ a) :
    splitNl (a ++ 10 :: m) = a :: splitNl m := by
  induction a with
  | nil => simp [splitNl]
  | cons b t ih =>
    have hb : b ≠ 10 := fun hb => h (by simp [hb])
    have ht : (10 : Nat) ∉ t := fun hm => h (List.mem_cons_of_mem _ hm)
    simp only [List.cons_append, splitNl, if_neg hb, List.append_eq, ih ht]

theorem dropLastEmpty_cons {x : List Nat} {qs : List (List Nat)} (h : qs ≠ []) :
    dropLastEmpty (x :: qs) = x :: dropLastEmpty qs := by
  unfold dropLastEmpty
  rcases qs with _ | ⟨y, r⟩
  · exact absurd rfl h
  · rw [List.getLast?_cons_cons]
    split
    · rw [List.dropLast_cons_of_ne_nil (by simp)]
    · rfl

theorem stripCr_eq_self {l : List Nat} (h : l.getLast? ≠ some 13) : stripCr l = l := by
  unfold stripCr
  rw [if_neg h]

theorem rustLines_cons {a : List Nat} (m : List Nat) (h : (10 : Nat) ∉ a) :
    rustLines (a ++ 10 :: m) = stripCr a :: rustLines m := by
  unfold rustLines
  rw [splitNl_append m h, dropLastEmpty_cons (splitNl_ne_nil m), List.map_cons]

theorem rustLines_single {x : List Nat} (hx : (10 : Nat) ∉ x) (hne : x ≠ []) :
    rustLines x = [stripCr x] := by
  unfold rustLines
  rw [splitNl_no_nl hx]
  unfold dropLastEmpty
  rw [if_neg (by simpa using hne)]
  rfl

/-- Joining lines that contain no newline, do not end in a carriage
return, and whose last line is nonempty, then splitting again, is the
identity. -/
theorem rustLines_joinNl :
    ∀ ls : List (List Nat), (∀ l ∈ ls, (10 : Nat) ∉ l ∧ l.getLast? ≠ some 13) →
      ls.getLast? ≠ some [] → rustLines (joinNl ls) = ls := by
  intro ls
  induction ls with
  | nil => intro _ _; rfl
  | cons x r ih =>
    intro hgood hlast
    rcases r with _ | ⟨y, r2⟩
    · have hx := hgood x (by simp)
      have hne : x ≠ [] := by
        intro hx0
        apply hlast
        rw [hx0]
        rfl
      rw [show joinNl [x] = x from rfl, rustLines_single hx.1 hne, stripCr_eq_self hx.2]
    · have hx := hgood x (by simp)
      rw [show joinNl (x :: y :: r2) = x ++ 10 :: joinNl (y :: r2) from rfl,
        rustLines_cons _ hx.1, stripCr_eq_self hx.2,
        ih (fun l hl => hgood l (List.mem_cons_of_mem _ hl)) (by rwa [List.getLast?_cons_cons] at hlast)]

theorem mem_joinNl : ∀ (ls : List (List Nat)) (b : Nat), b ∈ joinNl ls →
    b = 10 ∨ ∃ l ∈ ls, b ∈ l := by
  intro ls
  induction ls with
  | nil => intro b hb; simp [joinNl] at hb
  | cons x r ih =>
    intro b hb
    rcases r with _ | ⟨y, r2⟩
    · exact Or.inr ⟨x, by simp, hb⟩
    · rw [show joinNl (x :: y :: r2) = x ++ 10 :: joinNl (y :: r2) from rfl] at hb
      rcases List.mem_append.mp hb with h | h
      · exact Or.inr ⟨x, by simp, h⟩
      · rcases List.mem_cons.mp h with h | h
        · exact Or.inl h
        · rcases ih b h with h | ⟨l, hl, hbl⟩
          · exact Or.inl h
          · exact Or.inr ⟨l, List.mem_cons_of_mem _ hl, hbl⟩

/-! ## Supporting lemmas: UTF-8 -/

theorem utf8ValidB_cons_of_ascii {b : Nat} (t : List Nat) (hb : b < 128) :
    utf8ValidB (b :: t) = utf8ValidB t := by
  rw [utf8ValidB.eq_def]
  simp only [if_pos hb]

theorem utf8ValidB_of_ascii : ∀ s : List Nat, (∀ b ∈ s, b < 128) → utf8ValidB s = true := by
  intro s
  induction s with
  | nil => intro _; rfl
  | cons b t ih =>
    intro h
    rw [utf8ValidB_cons_of_ascii t (h b (by simp))]
    exact ih (fun x hx => h x (List.mem_cons_of_mem _ hx))

theorem utf8ValidB_cons_ascii {b : Nat} {t : List Nat} (h : utf8ValidB (b :: t) = true)
    (hb : b < 128) : utf8ValidB t = true := by
  rwa [utf8ValidB_cons_of_ascii t hb] at h

/-! ## Supporting lemmas: decimal formatting of `i64` -/

theorem foldr_eq_ofDigits :
    ∀ l : List Nat, l.foldr (fun d a => a * 10 + d) 0 = Nat.ofDigits 10 l := by
  intro l
  induction l with
  | nil => rfl
  | cons d t ih =>
    rw [List.foldr_cons, ih, Nat.ofDigits_cons]
    omega

theorem decode_natDecStr (n : Nat) :
    (natDecStr n).foldl (fun a d => a * 10 + (d - 48)) 0 = n := by
  unfold natDecStr
  split
  · next h => subst h; rfl
  · rw [List.foldl_map, List.foldl_reverse]
    have he : (fun (x : Nat) (y : Nat) => y * 10 + (x + 48 - 48)) = fun x y => y * 10 + x := by
      funext x y
      omega
    rw [he, foldr_eq_ofDigits, Nat.ofDigits_digits]

theorem natDecStr_digits (n : Nat) : ∀ b ∈ natDecStr n, 48 ≤ b ∧ b ≤ 57 := by
  intro b hb
  unfold natDecStr at hb
  split at hb
  · simp at hb
    omega
  · rcases List.mem_map.mp hb with ⟨d, hd, hdb⟩
    have : d < 10 := Nat.digits_lt_base (by omega) (List.mem_reverse.mp hd)
    omega

theorem natDecStr_ne_nil (n : Nat) : natDecStr n ≠ [] := by
  unfold natDecStr
  split
  · simp
  · simp [Nat.digits_ne_nil_iff_ne_zero.mpr (by assumption)]

theorem goodByte_i64Str (t : Int) : ∀ b ∈ i64Str t, GoodByte b := by
  intro b hb
  unfold i64Str at hb
  split at hb
  · rcases List.mem_cons.mp hb with h | h
    · subst h
      exact ⟨by omega, by omega, by omega⟩
    · have := natDecStr_digits _ b h
      exact ⟨by omega, by omega, by omega⟩
  · have := natDecStr_digits _ b hb
    exact ⟨by omega, by omega, by omega⟩

theorem i64Str_ne_nil (t : Int) : i64Str t ≠ [] := by
  unfold i64Str
  split
  · simp
  · exact natDecStr_ne_nil _

theorem i64Str_getLast (t : Int) : (i64Str t).getLast? ≠ some 13 := by
  intro h
  exact (goodByte_i64Str t 13 (List.mem_of_mem_getLast? (by rw [h]; rfl))).2.2 rfl

theorem all_digitB_natDecStr (n : Nat) : (natDecStr n).all digitB = true := by
  rw [List.all_eq_true]
  intro b hb
  have := natDecStr_digits n b hb
  simp only [digitB, Bool.and_eq_true, decide_eq_true_eq]
  omega

theorem parseDigits_natDecStr (n : Nat) : parseDigits (natDecStr n) = some n := by
  unfold parseDigits
  rw [if_neg (natDecStr_ne_nil n), if_pos (all_digitB_natDecStr n), decode_natDecStr]

/-- `str::parse::<i64>` inverts `format!("{}")` on the whole `i64`
range. -/
theorem parseI64_i64Str {t : Int} (h1 : -9223372036854775808 ≤ t)
    (h2 : t < 9223372036854775808) : parseI64 (i64Str t) = some t := by
  by_cases ht : t < 0
  · have habs : t.natAbs ≤ 9223372036854775808 := by omega
    have hs : i64Str t = 45 :: natDecStr t.natAbs := by
      unfold i64Str
      rw [if_pos ht]
    rw [hs]
    unfold parseI64
    simp only [if_pos rfl, parseDigits_natDecStr t.natAbs, if_pos habs]
    exact congrArg some (by omega)
  · have hnn : 0 ≤ t := by omega
    have hle : t.toNat ≤ 9223372036854775807 := by omega
    have hs : i64Str t = natDecStr t.toNat := by
      unfold i64Str
      rw [if_neg ht]
    rcases hd : natDecStr t.toNat with _ | ⟨b, r⟩
    · exact absurd hd (natDecStr_ne_nil _)
    · have hb : 48 ≤ b ∧ b ≤ 57 := natDecStr_digits _ b (by rw [hd]; simp)
      rw [hs, hd]
      rw [show parseI64 (b :: r)
          = if b = 45 then
              match parseDigits r with
              | none => none
              | some n => if n ≤ 9223372036854775808 then some (-(n : Int)) else none
            else
              match parseDigits (if b = 43 then r else b :: r) with
              | none => none
              | some n => if n ≤ 9223372036854775807 then some (n : Int) else none
        from rfl]
      rw [if_neg (by omega : ¬b = 45), if_neg (by omega : ¬b = 43), ← hd,
        parseDigits_natDecStr t.toNat]
      simp only [if_pos hle]
      exact congrArg some (by omega)

/-! ## Envelope round trip -/

/-- Any packet built by `build_authenticated_packet` over lines of
plain bytes (ASCII, no `'\n'`, no `'\r'`), the last line nonempty,
parses back to exactly those lines under the same secret. -/
theorem parseAuth_build (pw : List Nat) (ls : List (List Nat))
    (hgood : ∀ l ∈ ls, ∀ b ∈ l, GoodByte b) (hlast : ls.getLast? ≠ some []) :
    parse_authenticated_packet pw (build_authenticated_packet pw (joinNl ls)) = .ok ls := by
  have hpkt : build_authenticated_packet pw (joinNl ls)
      = (asciiBytes "AUTH " ++ hmac_sha256 pw (joinNl ls)) ++ 10 :: joinNl ls := by
    unfold build_authenticated_packet
    rw [List.append_assoc]
  have hA : ∀ b ∈ asciiBytes "AUTH " ++ hmac_sha256 pw (joinNl ls), GoodByte b := by
    intro b hb
    rcases List.mem_append.mp hb with h | h
    · have : ∀ b ∈ asciiBytes "AUTH ", GoodByte b := by decide
      exact this b h
    · exact goodByte_hmac pw (joinNl ls) b h
  have h10A : (10 : Nat) ∉ asciiBytes "AUTH " ++ hmac_sha256 pw (joinNl ls) := by
    intro h
    exact (hA 10 h).2.1 rfl
  have hlen : ¬(build_authenticated_packet pw (joinNl ls)).length < 4 := by
    rw [hpkt]
    simp [asciiBytes]
  have htake : (build_authenticated_packet pw (joinNl ls)).take 4 = asciiBytes "AUTH" := rfl
  have hutf8 : utf8ValidB (build_authenticated_packet pw (joinNl ls)) = true := by
    apply utf8ValidB_of_ascii
    intro b hb
    rw [hpkt] at hb
    rcases List.mem_append.mp hb with h | h
    · exact (hA b h).1
    · rcases List.mem_cons.mp h with h | h
      · omega
      · rcases mem_joinNl ls b h with h10 | ⟨l, hl, hbl⟩
        · omega
        · exact (hgood l hl b hbl).1
  have hlines : rustLines (build_authenticated_packet pw (joinNl ls))
      = (asciiBytes "AUTH " ++ hmac_sha256 pw (joinNl ls)) :: ls := by
    rw [hpkt, rustLines_cons _ h10A, stripCr_eq_self (authLine_getLast pw (joinNl ls)),
      rustLines_joinNl ls ?hlines hlast]
    case hlines =>
      intro l hl
      constructor
      · intro h10
        exact (hgood l hl 10 h10).2.1 rfl
      · intro h13
        exact (hgood l hl 13 (List.mem_of_mem_getLast? (by rw [h13]; rfl))).2.2 rfl
  unfold parse_authenticated_packet
  rw [if_neg hlen, if_neg (by rw [htake]; exact fun h => h rfl), if_pos hutf8]
  simp only [hlines, List.drop_succ_cons, List.drop_zero]
  simp

/-! ## Handshake and connect round trips -/

/-- Parsing a handshake packet built with the same secret reduces to
the replay-window comparison on the wrapped `i64` difference of the
two timestamps, provided the address collaborator produces a nonempty
plain-byte string that parses back to the original endpoint. -/
theorem handshake_parse_build {A : Type} (m : AddrModel A) (pw : List Nat) (a : A) (T now : Int)
    (hgood : ∀ b ∈ m.addrToStr a, GoodByte b) (hne : m.addrToStr a ≠ [])
    (hrt : m.strToAddr (m.addrToStr a) = some a)
    (hT1 : -9223372036854775808 ≤ T) (hT2 : T < 9223372036854775808) :
    _handshake_parse m pw now (_handshake_build m pw T a)
      = if 5000 < i64Wrap (now - T) then .err .handshakeExpired else .ok a := by
  have hl0good : ∀ b ∈ asciiBytes "NOW " ++ i64Str T, GoodByte b := by
    intro b hb
    rcases List.mem_append.mp hb with h | h
    · have : ∀ b ∈ asciiBytes "NOW ", GoodByte b := by decide
      exact this b h
    · exact goodByte_i64Str T b h
  have hl1good : ∀ b ∈ asciiBytes "TARGET " ++ m.addrToStr a, GoodByte b := by
    intro b hb
    rcases List.mem_append.mp hb with h | h
    · have : ∀ b ∈ asciiBytes "TARGET ", GoodByte b := by decide
      exact this b h
    · exact hgood b h
  have henv := parseAuth_build pw
    [asciiBytes "NOW " ++ i64Str T, asciiBytes "TARGET " ++ m.addrToStr a]
    (by
      intro l hl b hb
      rcases List.mem_cons.mp hl with h | h
      · subst h; exact hl0good b hb
      · rcases List.mem_cons.mp h with h | h
        · subst h; exact hl1good b hb
        · simp at h)
    (by simp [asciiBytes])
  have hbuild : _handshake_build m pw T a = build_authenticated_packet pw
      (joinNl [asciiBytes "NOW " ++ i64Str T, asciiBytes "TARGET " ++ m.addrToStr a]) := rfl
  unfold _handshake_parse
  rw [hbuild, henv]
  have hpre0 : (asciiBytes "NOW ").isPrefixOf (asciiBytes "NOW " ++ i64Str T) = true :=
    List.isPrefixOf_iff_prefix.mpr (List.prefix_append _ _)
  have hlen0 : 4 < (asciiBytes "NOW " ++ i64Str T).length := by
    have := List.length_pos.mpr (i64Str_ne_nil T)
    simp [asciiBytes]
    omega
  have hpre1 : (asciiBytes "TARGET ").isPrefixOf (asciiBytes "TARGET " ++ m.addrToStr a) = true :=
    List.isPrefixOf_iff_prefix.mpr (List.prefix_append _ _)
  have hlen1 : 7 < (asciiBytes "TARGET " ++ m.addrToStr a).length := by
    have := List.length_pos.mpr hne
    simp [asciiBytes]
    omega
  have hdrop0 : (asciiBytes "NOW " ++ i64Str T).drop 4 = i64Str T := by
    rw [show (4 : Nat) = (asciiBytes "NOW ").length from rfl, List.drop_left]
  have hdrop1 : (asciiBytes "TARGET " ++ m.addrToStr a).drop 7 = m.addrToStr a := by
    rw [show (7 : Nat) = (asciiBytes "TARGET ").length from rfl, List.drop_left]
  simp only [if_pos (And.intro hpre0 hlen0), if_pos (And.intro hpre1 hlen1), hdrop0, hdrop1,
    parseI64_i64Str hT1 hT2, hrt]

/-- Parsing a connect packet built with the same secret over a
6-byte plain identifier returns exactly that identifier. -/
theorem connect_parse_build (pw conn_id : List Nat) (hgood : ∀ b ∈ conn_id, GoodByte b)
    (hlen : conn_id.length = 6) :
    connect_parse pw (_connect_build pw conn_id) = .ok conn_id := by
  have henv := parseAuth_build pw [asciiBytes "NEW CONNECTION " ++ conn_id]
    (by
      intro l hl b hb
      rcases List.mem_cons.mp hl with h | h
      · subst h
        rcases List.mem_append.mp hb with h | h
        · have : ∀ b ∈ asciiBytes "NEW CONNECTION ", GoodByte b := by decide
          exact this b h
        · exact hgood b h
      · simp at h)
    (by simp [asciiBytes])
  have hbuild : _connect_build pw conn_id
      = build_authenticated_packet pw (joinNl [asciiBytes "NEW CONNECTION " ++ conn_id]) := rfl
  unfold connect_parse
  rw [hbuild, henv]
  have hpre : (asciiBytes "NEW CONNECTION ").isPrefixOf
      (asciiBytes "NEW CONNECTION " ++ conn_id) = true :=
    List.isPrefixOf_iff_prefix.mpr (List.prefix_append _ _)
  have hl : (asciiBytes "NEW CONNECTION " ++ conn_id).length = 21 := by
    simp [asciiBytes, hlen]
  have hdrop : (asciiBytes "NEW CONNECTION " ++ conn_id).drop 15 = conn_id := by
    rw [show (15 : Nat) = (asciiBytes "NEW CONNECTION ").length from rfl, List.drop_left]
  simp only [if_pos (And.intro hpre hl), hdrop]

/-! ## UTF-8 validity of sub-sequences

In valid UTF-8, an ASCII byte is always a complete character, so
cutting a valid sequence at an ASCII byte leaves two valid pieces.
These lemmas transport validity from a packet to its lines and from a
line to the suffix after an ASCII prefix. -/

theorem contB_ge {b : Nat} (h : contB b = true) : 128 ≤ b := by
  simp [contB] at h
  omega

theorem v3_snd {b1 b2 : Nat} (h : v3 b1 b2 = true) : 128 ≤ b2 := by
  simp [v3, contB] at h
  omega

theorem v4_snd {b1 b2 : Nat} (h : v4 b1 b2 = true) : 128 ≤ b2 := by
  simp [v4, contB] at h
  omega

/-- Cutting valid UTF-8 at an ASCII byte yields two valid pieces. -/
theorem utf8_append_ascii :
    ∀ s : List Nat, utf8ValidB s = true → ∀ a c b2, s = a ++ c :: b2 → c < 128 →
      utf8ValidB a = true ∧ utf8ValidB b2 = true := by
  intro s
  induction s using utf8ValidB.induct with
  | case1 =>
    intro _ a c b2 he _
    exact absurd he.symm (by simp)
  | case2 x t hx ih =>
    intro hv a c b2 he hc
    have hvt : utf8ValidB t = true := by
      rwa [utf8ValidB_cons_of_ascii t hx] at hv
    rcases a with _ | ⟨y, a2⟩
    · simp only [List.nil_append, List.cons.injEq] at he
      exact ⟨rfl, by rw [← he.2]; exact hvt⟩
    · simp only [List.cons_append, List.cons.injEq] at he
      have hr := ih hvt a2 c b2 he.2 hc
      refine ⟨?_, hr.2⟩
      have hy : y < 128 := he.1 ▸ hx
      rw [utf8ValidB_cons_of_ascii a2 hy]
      exact hr.1
  | case3 x hx =>
    intro hv
    rw [utf8ValidB.eq_def] at hv
    simp [hx] at hv
  | case4 x hx y t hcond ih =>
    intro hv a c b2 he hc
    rw [utf8ValidB.eq_def] at hv
    simp only [if_neg hx, if_pos hcond] at hv
    rw [Bool.and_eq_true] at hv
    rcases a with _ | ⟨a1, _ | ⟨a2, a3⟩⟩
    · simp only [List.nil_append, List.cons.injEq] at he
      omega
    · simp only [List.cons_append, List.nil_append, List.cons.injEq] at he
      have := contB_ge hv.1
      omega
    · simp only [List.cons_append, List.cons.injEq] at he
      obtain ⟨hxa, hya, hta⟩ := he
      have hr := ih hv.2 a3 c b2 hta hc
      refine ⟨?_, hr.2⟩
      rw [utf8ValidB.eq_def]
      subst hxa hya
      simp only [if_neg hx, if_pos hcond]
      rw [Bool.and_eq_true]
      exact ⟨hv.1, hr.1⟩
  | case5 x hx y hcond =>
    intro hv
    rw [utf8ValidB.eq_def] at hv
    simp [hx, hcond] at hv
  | case6 x hx y hcond z t hv3 ih =>
    intro hv a c b2 he hc
    rw [utf8ValidB.eq_def] at hv
    simp only [if_neg hx, if_neg hcond, if_pos hv3] at hv
    rw [Bool.and_eq_true] at hv
    rcases a with _ | ⟨a1, _ | ⟨a2, _ | ⟨a3, a4⟩⟩⟩
    · simp only [List.nil_append, List.cons.injEq] at he
      omega
    · simp only [List.cons_append, List.nil_append, List.cons.injEq] at he
      have := v3_snd hv3
      omega
    · simp only [List.cons_append, List.nil_append, List.cons.injEq] at he
      have := contB_ge hv.1
      omega
    · simp only [List.cons_append, List.cons.injEq] at he
      obtain ⟨hxa, hya, hza, hta⟩ := he
      have hr := ih hv.2 a4 c b2 hta hc
      refine ⟨?_, hr.2⟩
      rw [utf8ValidB.eq_def]
      subst hxa hya hza
      simp only [if_neg hx, if_neg hcond, if_pos hv3]
      rw [Bool.and_eq_true]
      exact ⟨hv.1, hr.1⟩
  | case7 x hx y hcond z hv3 =>
    intro hv
    rw [utf8ValidB.eq_def] at hv
    simp [hx, hcond, hv3] at hv
  | case8 x hx y hcond z hv3 w t hv4 ih =>
    intro hv a c b2 he hc
    rw [utf8ValidB.eq_def] at hv
    simp only [if_neg hx, if_neg hcond, if_neg hv3, if_pos hv4] at hv
    rw [Bool.and_eq_true, Bool.and_eq_true] at hv
    rcases a with _ | ⟨a1, _ | ⟨a2, _ | ⟨a3, _ | ⟨a4, a5⟩⟩⟩⟩
    · simp only [List.nil_append, List.cons.injEq] at he
      omega
    · simp only [List.cons_append, List.nil_append, List.cons.injEq] at he
      have := v4_snd hv4
      omega
    · simp only [List.cons_append, List.nil_append, List.cons.injEq] at he
      have := contB_ge hv.1.1
      omega
    · simp only [List.cons_append, List.nil_append, List.cons.injEq] at he
      have := contB_ge hv.1.2
      omega
    · simp only [List.cons_append, List.cons.injEq] at he
      obtain ⟨hxa, hya, hza, hwa, hta⟩ := he
      have hr := ih hv.2 a5 c b2 hta hc
      refine ⟨?_, hr.2⟩
      rw [utf8ValidB.eq_def]
      subst hxa hya hza hwa
      simp only [if_neg hx, if_neg hcond, if_neg hv3, if_pos hv4]
      rw [Bool.and_eq_true, Bool.and_eq_true]
      exact ⟨⟨hv.1.1, hv.1.2⟩, hr.1⟩
  | case9 x hx y hcond z hnv3 w t hnv4 =>
    intro hv
    rw [utf8ValidB.eq_def] at hv
    simp [hx, hcond, hnv3, hnv4] at hv

theorem exists_split_first {s : List Nat} (h : (10 : Nat) ∈ s) :
    ∃ a b, (10 : Nat) ∉ a ∧ s = a ++ 10 :: b := by
  induction s with
  | nil => simp at h
  | cons x t ih =>
    by_cases hx : x = 10
    · exact ⟨[], t, by simp, by simp [hx]⟩
    · rcases List.mem_cons.mp h with h | h
      · exact absurd h.symm hx
      · obtain ⟨a, b, ha, hs⟩ := ih h
        refine ⟨x :: a, b, ?_, by simp [hs]⟩
        simp [ha]
        omega

theorem utf8ValidB_splitNl : ∀ (n : Nat) (s : List Nat), s.length ≤ n →
    utf8ValidB s = true → ∀ p ∈ splitNl s, utf8ValidB p = true := by
  intro n
  induction n with
  | zero =>
    intro s hl hv p hp
    have : s = [] := List.length_eq_zero.mp (by omega)
    subst this
    simp only [splitNl, List.mem_singleton] at hp
    subst hp
    exact hv
  | succ n ih =>
    intro s hl hv p hp
    by_cases h10 : (10 : Nat) ∈ s
    · obtain ⟨a, b, ha, hs⟩ := exists_split_first h10
      subst hs
      obtain ⟨hva, hvb⟩ := utf8_append_ascii _ hv a 10 b rfl (by omega)
      rw [splitNl_append b ha] at hp
      rcases List.mem_cons.mp hp with h | h
      · subst h
        exact hva
      · have hlb : b.length ≤ n := by
          rw [List.length_append] at hl
          simp only [List.length_cons] at hl
          omega
        exact ih b hlb hvb p h
    · rw [splitNl_no_nl h10] at hp
      simp only [List.mem_singleton] at hp
      subst hp
      exact hv

theorem utf8ValidB_stripCr {l : List Nat} (h : utf8ValidB l = true) :
    utf8ValidB (stripCr l) = true := by
  unfold stripCr
  split
  · next hlast =>
    have hne : l ≠ [] := by
      intro h0
      rw [h0] at hlast
      simp at hlast
    have hl : l = l.dropLast ++ 13 :: [] := by
      conv_lhs => rw [← List.dropLast_append_getLast hne]
      have : l.getLast hne = 13 := by
        have := List.getLast?_eq_getLast l hne
        rw [this] at hlast
        exact (Option.some_inj.mp hlast)
      rw [this]
  -- placeholder
    exact (utf8_append_ascii l h l.dropLast 13 [] hl (by omega)).1
  · exact h

theorem utf8ValidB_rustLines {s : List Nat} (hv : utf8ValidB s = true) :
    ∀ l ∈ rustLines s, utf8ValidB l = true := by
  intro l hl
  unfold rustLines at hl
  rcases List.mem_map.mp hl with ⟨p, hp, hlp⟩
  have hpmem : p ∈ splitNl s := by
    unfold dropLastEmpty at hp
    split at hp
    · exact (List.dropLast_sublist (splitNl s)).subset hp
    · exact hp
  rw [← hlp]
  exact utf8ValidB_stripCr (utf8ValidB_splitNl s.length s le_rfl hv p hpmem)

/-- Dropping an all-ASCII prefix of a valid UTF-8 string leaves a
valid string (the cut is on a character boundary). -/
theorem utf8ValidB_drop_ascii : ∀ (p l : List Nat), p.isPrefixOf l = true →
    (∀ b ∈ p, b < 128) → utf8ValidB l = true →
    p.length ≤ l.length ∧ utf8ValidB (l.drop p.length) = true := by
  intro p
  induction p with
  | nil =>
    intro l _ _ hv
    simpa using hv
  | cons a p2 ih =>
    intro l hpre hascii hv
    rcases l with _ | ⟨b, l2⟩
    · simp [List.isPrefixOf] at hpre
    · simp only [List.isPrefixOf, Bool.and_eq_true, beq_iff_eq] at hpre
      have hb : b < 128 := hpre.1 ▸ hascii a (by simp)
      have hv2 : utf8ValidB l2 = true := utf8ValidB_cons_ascii hv hb
      have := ih l2 hpre.2 (fun x hx => hascii x (List.mem_cons_of_mem _ hx)) hv2
      refine ⟨by simpa using this.1, ?_⟩
      simpa using this.2

/-! ## Connect identifier alphabet -/

/-- Modelled from the spec: the `randomString(length, alphabet)`
collaborator (`util::rand_str`, not among the sources) draws from a
fixed alphanumeric ASCII alphabet (§3: "characters drawn from a fixed
alphabet"). -/
def randAlphabet (b : Nat) : Prop :=
  (48 ≤ b ∧ b ≤ 57) ∨ (65 ≤ b ∧ b ≤ 90) ∨ (97 ≤ b ∧ b ≤ 122)

instance : DecidablePred randAlphabet := fun b => by
  unfold randAlphabet
  infer_instance

/-! ## The claims -/

/-- C1: the claim requires envelope parse to return `MalformedPacket`
on every input shorter than 4 bytes, with a length-checked `AUTH`
comparison that never panics.  The code instead slices `packet[0..4]`
with no length guard, so the 3-byte input `"AUT"` panics
(out-of-bounds range) rather than returning the typed error: this
theorem evaluates the model at that failing input. -/
theorem c1_short_packet_panics :
    parse_authenticated_packet (asciiBytes "x") (asciiBytes "AUT") = .panic := rfl

/-- C3: round trip (handshake): parsing, at the build timestamp, a
handshake packet built with the same secret returns the original
endpoint, for every address collaborator whose formatted output is a
nonempty sequence of plain ASCII bytes (no `'\n'`, no `'\r'`) that
`str_to_addr` maps back to the endpoint, and every `i64` timestamp. -/
theorem c3_handshake_roundtrip {A : Type} (m : AddrModel A) (pw : List Nat) (a : A) (T : Int)
    (hgood : ∀ b ∈ m.addrToStr a, GoodByte b) (hne : m.addrToStr a ≠ [])
    (hrt : m.strToAddr (m.addrToStr a) = some a)
    (hT1 : -9223372036854775808 ≤ T) (hT2 : T < 9223372036854775808) :
    _handshake_parse m pw T (_handshake_build m pw T a) = .ok a := by
  rw [handshake_parse_build m pw a T T hgood hne hrt hT1 hT2]
  rw [if_neg (by unfold i64Wrap; omega)]

/-- Witness for C3 at a concrete secret, timestamp and address. -/
theorem c3_handshake_roundtrip_witness :
    (∀ b ∈ listAddrModel.addrToStr (asciiBytes "1.2.3.4:80"), GoodByte b)
    ∧ listAddrModel.addrToStr (asciiBytes "1.2.3.4:80") ≠ []
    ∧ listAddrModel.strToAddr (listAddrModel.addrToStr (asciiBytes "1.2.3.4:80"))
        = some (asciiBytes "1.2.3.4:80")
    ∧ _handshake_parse listAddrModel (asciiBytes "secret") 1517476212983
        (_handshake_build listAddrModel (asciiBytes "secret") 1517476212983
          (asciiBytes "1.2.3.4:80"))
      = .ok (asciiBytes "1.2.3.4:80") :=
  ⟨by decide, by decide, rfl,
    c3_handshake_roundtrip listAddrModel (asciiBytes "secret") (asciiBytes "1.2.3.4:80")
      1517476212983 (by decide) (by decide) rfl (by decide) (by decide)⟩

/-- C2 (amended): the replay boundary holds as claimed whenever the
difference `now - T` is representable in `i64`: built at `T`, parsed
at `now`, the handshake succeeds if `now - T ≤ 5000` and fails with
`HandshakeExpired` if `now - T ≥ 5001`.  (Without the
representability bound the `i64` subtraction `time - packet_time`
wraps and the boundary inverts; see the counterexample.) -/
theorem c2_replay_boundary_bounded {A : Type} (m : AddrModel A) (pw : List Nat) (a : A)
    (T now : Int)
    (hgood : ∀ b ∈ m.addrToStr a, GoodByte b) (hne : m.addrToStr a ≠ [])
    (hrt : m.strToAddr (m.addrToStr a) = some a)
    (hT1 : -9223372036854775808 ≤ T) (hT2 : T < 9223372036854775808)
    (hd1 : -9223372036854775808 ≤ now - T) (hd2 : now - T < 9223372036854775808) :
    (now - T ≤ 5000 → _handshake_parse m pw now (_handshake_build m pw T a) = .ok a)
    ∧ (5001 ≤ now - T →
        _handshake_parse m pw now (_handshake_build m pw T a) = .err .handshakeExpired) := by
  rw [handshake_parse_build m pw a T now hgood hne hrt hT1 hT2]
  have hw : i64Wrap (now - T) = now - T := by
    unfold i64Wrap
    omega
  constructor
  · intro h
    rw [if_neg (by rw [hw]; omega)]
  · intro h
    rw [if_pos (by rw [hw]; omega)]

/-- Witness for C2 at the two boundary offsets 5000 and 5001. -/
theorem c2_replay_boundary_bounded_witness :
    _handshake_parse listAddrModel (asciiBytes "pw") 1517476217983
        (_handshake_build listAddrModel (asciiBytes "pw") 1517476212983 (asciiBytes "8.8.4.4:53"))
      = .ok (asciiBytes "8.8.4.4:53")
    ∧ _handshake_parse listAddrModel (asciiBytes "pw") 1517476217984
        (_handshake_build listAddrModel (asciiBytes "pw") 1517476212983 (asciiBytes "8.8.4.4:53"))
      = .err .handshakeExpired :=
  ⟨(c2_replay_boundary_bounded listAddrModel (asciiBytes "pw") (asciiBytes "8.8.4.4:53")
      1517476212983 1517476217983 (by decide) (by decide) rfl (by decide) (by decide)
      (by decide) (by decide)).1 (by decide),
   (c2_replay_boundary_bounded listAddrModel (asciiBytes "pw") (asciiBytes "8.8.4.4:53")
      1517476212983 1517476217984 (by decide) (by decide) rfl (by decide) (by decide)
      (by decide) (by decide)).2 (by decide)⟩

/-- C2 counterexample: the claim as stated ("fails with
`HandshakeExpired` whenever `now - T ≥ 5001`") is false at
`T = i64::MIN`, `now = 10`: the difference `now - T = 2^63 + 10`
overflows `i64`, the wrapped value is negative, and the stale packet
is accepted (debug builds would panic on the same subtraction instead
of returning the claimed typed error). -/
theorem c2_wrap_counterexample :
    (5001 : Int) ≤ 10 - (-9223372036854775808)
    ∧ _handshake_parse listAddrModel (asciiBytes "x") 10
        (_handshake_build listAddrModel (asciiBytes "x") (-9223372036854775808)
          (asciiBytes "1.2.3.4:80"))
      = .ok (asciiBytes "1.2.3.4:80") := by
  refine ⟨by decide, ?_⟩
  rw [handshake_parse_build listAddrModel (asciiBytes "x") (asciiBytes "1.2.3.4:80")
    (-9223372036854775808) 10 (by decide) (by decide) rfl (by decide) (by decide)]
  rw [if_neg (by unfold i64Wrap; omega)]

/-- C7 (amended): the replay check bounds only staleness: a packet
whose timestamp `T` is at or after the verifier's `now` passes the
check (and parses successfully), provided the difference `now - T`
does not underflow `i64` (`now - T ≥ -2^63`, which holds in
particular whenever `now ≥ 0`).  When the difference underflows, the
wrapped value is a huge positive number and the future-dated packet
is rejected as expired; see the counterexample. -/
theorem c7_future_accepted {A : Type} (m : AddrModel A) (pw : List Nat) (a : A) (T now : Int)
    (hgood : ∀ b ∈ m.addrToStr a, GoodByte b) (hne : m.addrToStr a ≠ [])
    (hrt : m.strToAddr (m.addrToStr a) = some a)
    (hT1 : -9223372036854775808 ≤ T) (hT2 : T < 9223372036854775808)
    (hfut : now ≤ T) (hd : -9223372036854775808 ≤ now - T) :
    _handshake_parse m pw now (_handshake_build m pw T a) = .ok a := by
  rw [handshake_parse_build m pw a T now hgood hne hrt hT1 hT2]
  rw [if_neg (by unfold i64Wrap; omega)]

/-- Witness for C7: a packet time-stamped one hour into the verifier's
future is accepted. -/
theorem c7_future_accepted_witness :
    (1517476212983 : Int) ≤ 1517479812983
    ∧ _handshake_parse listAddrModel (asciiBytes "pw2") 1517476212983
        (_handshake_build listAddrModel (asciiBytes "pw2") 1517479812983
          (asciiBytes "10.0.0.1:22"))
      = .ok (asciiBytes "10.0.0.1:22") :=
  ⟨by decide,
    c7_future_accepted listAddrModel (asciiBytes "pw2") (asciiBytes "10.0.0.1:22")
      1517479812983 1517476212983 (by decide) (by decide) rfl (by decide) (by decide)
      (by decide) (by decide)⟩

/-- C7 counterexample: the claim as stated ("for every packet whose
timestamp is ≥ the verifier's now, the check does not reject") is
false at `now = -2`, `T = i64::MAX`: `now - T` underflows `i64`, the
wrapped difference is `2^63 - 1 > 5000`, and the future-dated packet
is rejected as `HandshakeExpired` (debug builds would panic on the
same subtraction). -/
theorem c7_wrap_counterexample :
    (-2 : Int) ≤ 9223372036854775807
    ∧ _handshake_parse listAddrModel (asciiBytes "x") (-2)
        (_handshake_build listAddrModel (asciiBytes "x") 9223372036854775807
          (asciiBytes "1.2.3.4:80"))
      = .err .handshakeExpired := by
  refine ⟨by decide, ?_⟩
  rw [handshake_parse_build listAddrModel (asciiBytes "x") (asciiBytes "1.2.3.4:80")
    9223372036854775807 (-2) (by decide) (by decide) rfl (by decide) (by decide)]
  rw [if_pos (by unfold i64Wrap; omega)]

/-- C8: round trip (connect): parsing, with the same secret, the
packet built by `connect_build` returns exactly the identifier that
`connect_build` returned alongside it, whenever the random-string
collaborator produced a 6-byte string over the declared alphanumeric
ASCII alphabet. -/
theorem c8_connect_roundtrip (pw conn_id : List Nat)
    (halpha : ∀ b ∈ conn_id, randAlphabet b) (hlen : conn_id.length = 6) :
    connect_parse pw (connect_build pw conn_id).2 = .ok (connect_build pw conn_id).1 := by
  have hgood : ∀ b ∈ conn_id, GoodByte b := by
    intro b hb
    have := halpha b hb
    unfold randAlphabet at this
    exact ⟨by omega, by omega, by omega⟩
  exact connect_parse_build pw conn_id hgood hlen

/-- Witness for C8 at the repository's own test identifier. -/
theorem c8_connect_roundtrip_witness :
    (∀ b ∈ asciiBytes "XnjEa2", randAlphabet b) ∧ (asciiBytes "XnjEa2").length = 6
    ∧ connect_parse (asciiBytes "eeovgrg")
        (connect_build (asciiBytes "eeovgrg") (asciiBytes "XnjEa2")).2
      = .ok (connect_build (asciiBytes "eeovgrg") (asciiBytes "XnjEa2")).1 :=
  ⟨by decide, by decide,
    c8_connect_roundtrip (asciiBytes "eeovgrg") (asciiBytes "XnjEa2") (by decide) (by decide)⟩

/-- C5 (amended): envelope parse itself enforces no minimum line
count: for every secret, the single-line packet `"AUTH <sig>"` whose
signature is the MAC of the empty string is accepted with an empty
body list; the two-line minimum the claim describes is enforced only
downstream, by the handshake parser (`NotHandshakePacket`) and the
connect parser (`NotConnectPacket`) rejecting the empty body. -/
theorem c5_single_auth_line_accepted (pw : List Nat) :
    parse_authenticated_packet pw (asciiBytes "AUTH " ++ hmac_sha256 pw []) = .ok []
    ∧ (∀ (A : Type) (m : AddrModel A) (t : Int),
        _handshake_parse m pw t (asciiBytes "AUTH " ++ hmac_sha256 pw [])
          = .err .notHandshakePacket)
    ∧ connect_parse pw (asciiBytes "AUTH " ++ hmac_sha256 pw []) = .err .notConnectPacket := by
  have hA : ∀ b ∈ asciiBytes "AUTH " ++ hmac_sha256 pw [], GoodByte b := by
    intro b hb
    rcases List.mem_append.mp hb with h | h
    · have : ∀ b ∈ asciiBytes "AUTH ", GoodByte b := by decide
      exact this b h
    · exact goodByte_hmac pw [] b h
  have h10A : (10 : Nat) ∉ asciiBytes "AUTH " ++ hmac_sha256 pw [] := by
    intro h
    exact (hA 10 h).2.1 rfl
  have hfirst : parse_authenticated_packet pw (asciiBytes "AUTH " ++ hmac_sha256 pw [])
      = .ok [] := by
    unfold parse_authenticated_packet
    rw [if_neg (by simp [asciiBytes]), if_neg (by exact fun h => h rfl),
      if_pos (utf8ValidB_of_ascii _ (fun b hb => (hA b hb).1))]
    have hlines : rustLines (asciiBytes "AUTH " ++ hmac_sha256 pw [])
        = [asciiBytes "AUTH " ++ hmac_sha256 pw []] := by
      rw [rustLines_single h10A (by simp [asciiBytes]),
        stripCr_eq_self (authLine_getLast pw [])]
    simp only [hlines, List.drop_succ_cons, List.drop_zero]
    simp [joinNl]
  refine ⟨hfirst, fun A m t => ?_, ?_⟩
  · unfold _handshake_parse
    rw [hfirst]
  · unfold connect_parse
    rw [hfirst]

/-- C6 (amended): the envelope splits on `'\n'` but, following Rust's
`str::lines`, strips one `'\r'` from the end of each line; a body
transmitted as `<b>\r\n<c>` is therefore parsed as the lines
`[b, c]`, and the carriage return does not participate in the
signature recomputation: the packet verifies against the MAC of
`<b>\n<c>`. -/
theorem c6_crlf_stripped (pw b c : List Nat) (hbg : ∀ x ∈ b, GoodByte x)
    (hcg : ∀ x ∈ c, GoodByte x) (hcne : c ≠ []) :
    parse_authenticated_packet pw
        (asciiBytes "AUTH " ++ hmac_sha256 pw (b ++ 10 :: c) ++ 10 :: (b ++ 13 :: 10 :: c))
      = .ok [b, c] := by
  have hA : ∀ x ∈ asciiBytes "AUTH " ++ hmac_sha256 pw (b ++ 10 :: c), GoodByte x := by
    intro x hx
    rcases List.mem_append.mp hx with h | h
    · have : ∀ x ∈ asciiBytes "AUTH ", GoodByte x := by decide
      exact this x h
    · exact goodByte_hmac pw (b ++ 10 :: c) x h
  have h10A : (10 : Nat) ∉ asciiBytes "AUTH " ++ hmac_sha256 pw (b ++ 10 :: c) := by
    intro h
    exact (hA 10 h).2.1 rfl
  have h10b13 : (10 : Nat) ∉ b ++ [13] := by
    intro h
    rcases List.mem_append.mp h with h | h
    · exact (hbg 10 h).2.1 rfl
    · simp at h
  have h10c : (10 : Nat) ∉ c := fun h => (hcg 10 h).2.1 rfl
  have hpkt : asciiBytes "AUTH " ++ hmac_sha256 pw (b ++ 10 :: c) ++ 10 :: (b ++ 13 :: 10 :: c)
      = (asciiBytes "AUTH " ++ hmac_sha256 pw (b ++ 10 :: c))
        ++ 10 :: ((b ++ [13]) ++ 10 :: c) := by
    rw [List.append_assoc b [13]]
    rfl
  have hraw : rustLines ((b ++ [13]) ++ 10 :: c) = b :: [c] := by
    rw [rustLines_cons _ h10b13, rustLines_single h10c hcne]
    have hstrip1 : stripCr (b ++ [13]) = b := by
      unfold stripCr
      rw [if_pos (List.getLast?_concat b), List.dropLast_concat]
    have hstrip2 : stripCr c = c := by
      apply stripCr_eq_self
      intro h
      exact (hcg 13 (List.mem_of_mem_getLast? (by rw [h]; rfl))).2.2 rfl
    rw [hstrip1, hstrip2]
  have hutf8 : utf8ValidB (asciiBytes "AUTH " ++ hmac_sha256 pw (b ++ 10 :: c)
      ++ 10 :: (b ++ 13 :: 10 :: c)) = true := by
    apply utf8ValidB_of_ascii
    intro x hx
    rw [hpkt] at hx
    rcases List.mem_append.mp hx with h | h
    · exact (hA x h).1
    · rcases List.mem_cons.mp h with h | h
      · omega
      · rcases List.mem_append.mp h with h | h
        · rcases List.mem_append.mp h with h | h
          · exact (hbg x h).1
          · simp at h
            omega
        · rcases List.mem_cons.mp h with h | h
          · omega
          · exact (hcg x h).1
  unfold parse_authenticated_packet
  rw [if_neg (by simp [asciiBytes]), if_neg (by exact fun h => h rfl), if_pos hutf8]
  rw [hpkt, rustLines_cons _ h10A,
    stripCr_eq_self (authLine_getLast pw (b ++ 10 :: c)), hraw]
  simp only [List.drop_succ_cons, List.drop_zero]
  simp [joinNl]

/-- Witness for C6 at a concrete secret and body. -/
theorem c6_crlf_stripped_witness :
    (∀ x ∈ asciiBytes "X", GoodByte x) ∧ (∀ x ∈ asciiBytes "YZ", GoodByte x)
    ∧ asciiBytes "YZ" ≠ []
    ∧ parse_authenticated_packet (asciiBytes "k")
        (asciiBytes "AUTH "
          ++ hmac_sha256 (asciiBytes "k") (asciiBytes "X" ++ 10 :: asciiBytes "YZ")
          ++ 10 :: (asciiBytes "X" ++ 13 :: 10 :: asciiBytes "YZ"))
      = .ok [asciiBytes "X", asciiBytes "YZ"] :=
  ⟨by decide, by decide, by decide,
    c6_crlf_stripped (asciiBytes "k") (asciiBytes "X") (asciiBytes "YZ")
      (by decide) (by decide) (by decide)⟩

/-- C4 (amended): connect parse succeeds only if the first body line
starts with `"NEW CONNECTION "` and has total length exactly 21
BYTES (not characters), and on success returns exactly the trailing 6
bytes (which may encode fewer than 6 characters; see the
counterexample). -/
theorem c4_connect_shape_bytes (pw packet conn_id : List Nat)
    (h : connect_parse pw packet = .ok conn_id) :
    ∃ l0 rest, parse_authenticated_packet pw packet = .ok (l0 :: rest)
      ∧ (asciiBytes "NEW CONNECTION ").isPrefixOf l0 = true
      ∧ l0.length = 21 ∧ conn_id = l0.drop 15 ∧ conn_id.length = 6 := by
  unfold connect_parse at h
  cases hp : parse_authenticated_packet pw packet with
  | ok lines =>
    simp only [hp] at h
    rcases lines with _ | ⟨l0, rest⟩
    · simp at h
    · have h2 : (if (asciiBytes "NEW CONNECTION ").isPrefixOf l0 = true ∧ l0.length = 21
          then PResult.ok (l0.drop 15) else PResult.err .notConnectPacket)
          = PResult.ok conn_id := h
      by_cases hc : (asciiBytes "NEW CONNECTION ").isPrefixOf l0 = true ∧ l0.length = 21
      · rw [if_pos hc] at h2
        simp only [PResult.ok.injEq] at h2
        refine ⟨l0, rest, rfl, hc.1, hc.2, h2.symm, ?_⟩
        rw [← h2, List.length_drop, hc.2]
      · rw [if_neg hc] at h2
        simp at h2
  | err e =>
    simp only [hp] at h
    simp at h
  | panic =>
    simp only [hp] at h
    simp at h

/-- C10: whenever envelope parse succeeds, every body line is valid
UTF-8; hence the byte slicings guarded by the ASCII prefixes `"NOW "`
(at 4), `"TARGET "` (at 7) and `"NEW CONNECTION "` (at 15) are in
bounds and cut at a character boundary — each suffix is itself valid
UTF-8, so the corresponding Rust `&str` slices cannot panic; and
whenever connect parse succeeds, the returned identifier is exactly 6
bytes. -/
theorem c10_slicing_safe (pw packet : List Nat) (lines : List (List Nat))
    (h : parse_authenticated_packet pw packet = .ok lines) :
    (∀ l ∈ lines, utf8ValidB l = true)
    ∧ (∀ l0 l1 rest, lines = l0 :: l1 :: rest →
        ((asciiBytes "NOW ").isPrefixOf l0 = true →
          4 ≤ l0.length ∧ utf8ValidB (l0.drop 4) = true)
        ∧ ((asciiBytes "TARGET ").isPrefixOf l1 = true →
          7 ≤ l1.length ∧ utf8ValidB (l1.drop 7) = true))
    ∧ (∀ l0 rest, lines = l0 :: rest →
        (asciiBytes "NEW CONNECTION ").isPrefixOf l0 = true →
        15 ≤ l0.length ∧ utf8ValidB (l0.drop 15) = true)
    ∧ (∀ conn_id, connect_parse pw packet = .ok conn_id → conn_id.length = 6) := by
  have hmain : utf8ValidB packet = true ∧ ∀ l ∈ lines, utf8ValidB l = true := by
    unfold parse_authenticated_packet at h
    by_cases h1 : packet.length < 4
    · rw [if_pos h1] at h
      simp at h
    · rw [if_neg h1] at h
      by_cases h2 : packet.take 4 ≠ asciiBytes "AUTH"
      · rw [if_pos h2] at h
        simp at h
      · rw [if_neg h2] at h
        by_cases h3 : utf8ValidB packet = true
        · rw [if_pos h3] at h
          refine ⟨h3, ?_⟩
          rcases hrl : rustLines packet with _ | ⟨l0, rest⟩
          · rw [hrl] at h
            simp at h
          · rw [hrl] at h
            have h4 : (if l0 = asciiBytes "AUTH "
                ++ hmac_sha256 pw (joinNl ((l0 :: rest).drop 1))
                then PResult.ok rest else PResult.err .authFailure) = PResult.ok lines := h
            have hrest : rest = lines := by
              by_cases hc : l0 = asciiBytes "AUTH " ++ hmac_sha256 pw (joinNl ((l0 :: rest).drop 1))
              · rw [if_pos hc] at h4
                simpa using h4
              · rw [if_neg hc] at h4
                simp at h4
            intro l hl
            refine utf8ValidB_rustLines h3 l ?_
            rw [hrl]
            exact List.mem_cons_of_mem _ (by rw [hrest]; exact hl)
        · rw [if_neg h3] at h
          simp at h
  have hlines := hmain.2
  refine ⟨hlines, ?_, ?_, ?_⟩
  · intro l0 l1 rest hls
    subst hls
    constructor
    · intro hpre
      have := utf8ValidB_drop_ascii (asciiBytes "NOW ") l0 hpre (by decide)
        (hlines l0 (by simp))
      exact ⟨this.1, this.2⟩
    · intro hpre
      have := utf8ValidB_drop_ascii (asciiBytes "TARGET ") l1 hpre (by decide)
        (hlines l1 (by simp))
      exact ⟨this.1, this.2⟩
  · intro l0 rest hls hpre
    subst hls
    have := utf8ValidB_drop_ascii (asciiBytes "NEW CONNECTION ") l0 hpre (by decide)
      (hlines l0 (by simp))
    exact ⟨this.1, this.2⟩
  · intro conn_id hc
    unfold connect_parse at hc
    rw [h] at hc
    rcases lines with _ | ⟨l0, rest⟩
    · simp at hc
    · have h2 : (if (asciiBytes "NEW CONNECTION ").isPrefixOf l0 = true ∧ l0.length = 21
          then PResult.ok (l0.drop 15) else PResult.err .notConnectPacket)
          = PResult.ok conn_id := hc
      by_cases hd : (asciiBytes "NEW CONNECTION ").isPrefixOf l0 = true ∧ l0.length = 21
      · rw [if_pos hd] at h2
        simp only [PResult.ok.injEq] at h2
        rw [← h2, List.length_drop, hd.2]
      · rw [if_neg hd] at h2
        simp at h2

/-- C9: known vectors: the authentication primitive (HMAC-SHA256 of
the message keyed by the secret, base64-encoded) reproduces both
reference signatures from the repository's unit tests. -/
theorem c9_known_vectors :
    hmac_sha256 (asciiBytes "testpasswd") (asciiBytes "testdata")
      = asciiBytes "pOWtIY65MVjolOXjrIkpNH72V95kfBGN9zL1OJdUZOY="
    ∧ hmac_sha256 (asciiBytes "testpasswd2") (asciiBytes "testdata2")
      = asciiBytes "3c/Z/9/7ZqSfddwILUTheauyZe7YdDCRRtOArSRo9bc=" := by
  constructor
  · decide
  · decide

/-- Witness for C4 at the repository's own connect test vector. -/
theorem c4_connect_shape_bytes_witness :
    connect_parse (asciiBytes "fneo0ivb")
        (asciiBytes "AUTH +l0yOYsTR0oqvj7//0iO24WjmdxRKNmMwVhXZpVLwvY=\nNEW CONNECTION 37keeU")
      = .ok (asciiBytes "37keeU")
    ∧ ∃ l0 rest,
        parse_authenticated_packet (asciiBytes "fneo0ivb")
          (asciiBytes "AUTH +l0yOYsTR0oqvj7//0iO24WjmdxRKNmMwVhXZpVLwvY=\nNEW CONNECTION 37keeU")
          = .ok (l0 :: rest)
        ∧ (asciiBytes "NEW CONNECTION ").isPrefixOf l0 = true
        ∧ l0.length = 21 ∧ asciiBytes "37keeU" = l0.drop 15 ∧ (asciiBytes "37keeU").length = 6 :=
  ⟨by decide,
    c4_connect_shape_bytes (asciiBytes "fneo0ivb")
      (asciiBytes "AUTH +l0yOYsTR0oqvj7//0iO24WjmdxRKNmMwVhXZpVLwvY=\nNEW CONNECTION 37keeU")
      (asciiBytes "37keeU") (by decide)⟩

/-- C4 counterexample: the claim as stated (length measured in
characters, trailing 6 characters returned) is false: the line
`"NEW CONNECTION aaaaé"` (the id is four `'a'`s followed by the
two-byte character e-acute) is 21 bytes but 20 characters long, yet a
correctly signed packet with that body is accepted, and the returned
identifier is 6 bytes but only 5 characters. -/
theorem c4_char_length_counterexample :
    build_authenticated_packet (asciiBytes "y") (asciiBytes "NEW CONNECTION aaaa" ++ [195, 169])
      = asciiBytes "AUTH y0aQ/rdwlz8RyeHnKQfC1+LDDQzwNQxSs+CQCHmXAqU=\nNEW CONNECTION aaaa"
        ++ [195, 169]
    ∧ connect_parse (asciiBytes "y")
        (asciiBytes "AUTH y0aQ/rdwlz8RyeHnKQfC1+LDDQzwNQxSs+CQCHmXAqU=\nNEW CONNECTION aaaa"
          ++ [195, 169])
      = .ok (asciiBytes "aaaa" ++ [195, 169])
    ∧ utf8CharCount (asciiBytes "NEW CONNECTION aaaa" ++ [195, 169]) = 20
    ∧ utf8CharCount (asciiBytes "aaaa" ++ [195, 169]) = 5
    ∧ (asciiBytes "aaaa" ++ [195, 169]).length = 6 :=
  ⟨by decide, by decide, by decide, by decide, by decide⟩

/-- C5 counterexample: a single correctly signed `"AUTH <sig>"` line
with empty body (one line, hence fewer than 2) is accepted by
envelope parse with an empty body list, not rejected with
`MalformedPacket` as the claim states. -/
theorem c5_single_line_counterexample :
    hmac_sha256 (asciiBytes "x") []
      = asciiBytes "8n5lJ9a4QIQwpma3RgcMMH9UK7VO5+bcswPz5SwLCfs="
    ∧ parse_authenticated_packet (asciiBytes "x")
        (asciiBytes "AUTH 8n5lJ9a4QIQwpma3RgcMMH9UK7VO5+bcswPz5SwLCfs=") = .ok []
    ∧ (rustLines (asciiBytes "AUTH 8n5lJ9a4QIQwpma3RgcMMH9UK7VO5+bcswPz5SwLCfs=")).length = 1 :=
  ⟨by decide, by decide, by decide⟩

/-- C6 counterexample: the claim says carriage returns before a
newline are retained in the body lines and participate in the
signature.  Here the raw body is `"B\r\nC"`, the packet is signed
over `"B\nC"` (no carriage return), and parsing accepts it, returning
the lines `["B", "C"]` with the carriage return stripped. -/
theorem c6_cr_not_retained_counterexample :
    hmac_sha256 (asciiBytes "x") (asciiBytes "B\nC")
      = asciiBytes "9P0+bKFW3xbkaAwMtpBkaHoIw8G8bEmjHZ4h48ifReQ="
    ∧ parse_authenticated_packet (asciiBytes "x")
        (asciiBytes "AUTH 9P0+bKFW3xbkaAwMtpBkaHoIw8G8bEmjHZ4h48ifReQ=\nB"
          ++ 13 :: 10 :: asciiBytes "C")
      = .ok [asciiBytes "B", asciiBytes "C"]
    ∧ (13 : Nat) ∈ asciiBytes "B" ++ 13 :: 10 :: asciiBytes "C"
    ∧ (13 : Nat) ∉ asciiBytes "B" :=
  ⟨by decide, by decide, by decide, by decide⟩

/-- Witness for C10 at the repository's first handshake test vector. -/
theorem c10_slicing_safe_witness :
    parse_authenticated_packet (asciiBytes "bscever")
        (asciiBytes
          "AUTH s4V0i9Lwlm6eve7JftwGEgKN20mgtbSW3uacxIuh0Fo=\nNOW 1517476212983\nTARGET 192.168.1.1:443")
      = .ok [asciiBytes "NOW 1517476212983", asciiBytes "TARGET 192.168.1.1:443"]
    ∧ (∀ l ∈ [asciiBytes "NOW 1517476212983", asciiBytes "TARGET 192.168.1.1:443"],
        utf8ValidB l = true) :=
  ⟨by decide,
    (c10_slicing_safe (asciiBytes "bscever")
      (asciiBytes
        "AUTH s4V0i9Lwlm6eve7JftwGEgKN20mgtbSW3uacxIuh0Fo=\nNOW 1517476212983\nTARGET 192.168.1.1:443")
      [asciiBytes "NOW 1517476212983", asciiBytes "TARGET 192.168.1.1:443"] (by decide)).1⟩

end Tws
